import Mathlib

/-!
Verification development for `webmark.py`, a command-line bookmark manager.

The program stores `code url description` triples in a flat text file using
Python's `csv` module with `delimiter=' '` and `quotechar='"'`, keeps an
in-memory `OrderedDict` keyed by code, and exposes four commands
(`list`, `add`, `rm`, `open`) behind an argparse-based CLI.

Python strings are modelled as lists of characters (`Str`); the storage file
is modelled by its full character content (an `Option Str`, `none` meaning
the file does not exist).  Stateful behaviour (prints, `storage.save` calls,
`webbrowser.open_new_tab` calls, raised errors) is modelled by explicit
result records carrying the traces of those effects.
-/

set_option autoImplicit false

abbrev Str := List Char

/-- `Bookmark` (webmark.py line 10): a named tuple of three string fields. -/
structure Bookmark where
  code : Str
  url : Str
  description : Str
deriving DecidableEq, Repr

/-- `Bookmark.__str__` (webmark.py lines 12-13): format as
`[code] url - description`. -/
def formatBookmark (b : Bookmark) : Str :=
  "[".data ++ b.code ++ "] ".data ++ b.url ++ " - ".data ++ b.description

/-! ### CSV writer (Python `csv.writer` with `delimiter=' '`, `quotechar='"'`)

`CSVObjectStorage.save` (webmark.py lines 31-35) writes each row through
`csv.writer` with the default `QUOTE_MINIMAL` quoting, `doublequote=True`
and line terminator `"\r\n"`: a field is quoted exactly when it contains the
delimiter, the quote character, or a line-terminator character, and an
embedded quote character is doubled. -/

/-- A field must be quoted when it contains the delimiter `' '`, the quote
character `'"'`, or a line-terminator character (`QUOTE_MINIMAL`). -/
def needsQuoting (f : Str) : Bool :=
  f.any (fun c => c = ' ' || c = '"' || c = '\r' || c = '\n')

/-- Double every embedded quote character (`doublequote=True`). -/
def escapeQuotes : Str → Str
  | [] => []
  | c :: cs => if c = '"' then '"' :: '"' :: escapeQuotes cs else c :: escapeQuotes cs

/-- Encode one field per Python `csv.writer` with `QUOTE_MINIMAL`. -/
def encodeField (f : Str) : Str :=
  if needsQuoting f then '"' :: (escapeQuotes f ++ ['"']) else f

/-- Encode one `writer.writerow` line for a 3-field bookmark row: the three
encoded fields joined by the single-space delimiter. -/
def encodeLine (b : Bookmark) : Str :=
  encodeField b.code ++ ' ' :: encodeField b.url ++ ' ' :: encodeField b.description

/-- `CSVObjectStorage.save` (webmark.py lines 31-35): truncate and write each
row as one encoded line terminated by `"\r\n"` (the `csv` module default).
The result is the full character content of the written file. -/
def storageSave (bs : List Bookmark) : Str :=
  (bs.map (fun b => encodeLine b ++ ['\r', '\n'])).flatten

/-! ### CSV reader (Python `csv.reader` with the same dialect)

`CSVObjectStorage.load` (webmark.py lines 22-29) opens the file in text mode
(universal newlines: `"\r\n"`, `"\r"` and `"\n"` all terminate a line) and
feeds the lines to `csv.reader`.  The reader is the standard CSV state
machine: `startField` / `inField` / `inQuoted` / `quoteInQuoted`, with the
non-strict recovery rule that a stray character after a closing quote is
appended to the field.  Fields of the rows written by this program never
contain line-terminator characters under the round-trip hypothesis, so a
record is always a single line and the multi-line quoted-field continuation
of the Python reader is never exercised. -/

inductive CsvMode
  | startField
  | inField
  | inQuoted
  | quoteInQuoted
deriving DecidableEq

/-- One step of the CSV reader state machine over the characters of a line
(the line carries no terminator characters).  `cur` is the field being
accumulated, `fields` the fields already finished. -/
def parseCsvAux : CsvMode → List Char → Str → List Str → List Str
  | _, [], cur, fields => fields ++ [cur]
  | .startField, c :: cs, cur, fields =>
    if c = '"' then parseCsvAux .inQuoted cs cur fields
    else if c = ' ' then parseCsvAux .startField cs [] (fields ++ [cur])
    else parseCsvAux .inField cs (cur ++ [c]) fields
  | .inField, c :: cs, cur, fields =>
    if c = ' ' then parseCsvAux .startField cs [] (fields ++ [cur])
    else parseCsvAux .inField cs (cur ++ [c]) fields
  | .inQuoted, c :: cs, cur, fields =>
    if c = '"' then parseCsvAux .quoteInQuoted cs cur fields
    else parseCsvAux .inQuoted cs (cur ++ [c]) fields
  | .quoteInQuoted, c :: cs, cur, fields =>
    if c = '"' then parseCsvAux .inQuoted cs (cur ++ ['"']) fields
    else if c = ' ' then parseCsvAux .startField cs [] (fields ++ [cur])
    else parseCsvAux .inField cs (cur ++ [c]) fields

/-- Parse one terminator-free line into its fields; a blank line yields the
empty row, as `csv.reader` does. -/
def parseLine (l : Str) : List Str :=
  if l = [] then [] else parseCsvAux .startField l [] []

/-- Split file content into lines, universal-newline style: `"\r\n"`, a lone
`'\r'` and a lone `'\n'` each terminate a line; content after the last
terminator, when non-empty, is a final line. -/
def splitLinesAux : List Char → Str → List Str
  | [], cur => if cur = [] then [] else [cur]
  | c :: cs, cur =>
    if c = '\r' then
      match cs with
      | [] => cur :: splitLinesAux [] []
      | c2 :: cs2 =>
        if c2 = '\n' then cur :: splitLinesAux cs2 []
        else cur :: splitLinesAux (c2 :: cs2) []
    else if c = '\n' then cur :: splitLinesAux cs []
    else splitLinesAux cs (cur ++ [c])

def splitLines (cs : List Char) : List Str :=
  splitLinesAux cs []

/-- `CSVObjectStorage.load` (webmark.py lines 22-29): if the target file does
not exist (`none`) the generator yields nothing; otherwise each line of the
file is parsed into a row of fields. -/
def storageLoad : Option Str → List (List Str)
  | none => []
  | some content => (splitLines content).map parseLine

/-! ### The in-memory collection (`OrderedDict`)

`self.bookmarks` (webmark.py line 47) is an `OrderedDict` from code to
`Bookmark`, modelled as an association list in iteration order.  Assigning
to an existing key replaces the value in place (position retained); a new
key is appended at the end. -/

abbrev OD := List (Str × Bookmark)

def odKeys (d : OD) : List Str := d.map Prod.fst

def odValues (d : OD) : List Bookmark := d.map Prod.snd

/-- `d[k]` lookup / `k in d`. -/
def odLookup : OD → Str → Option Bookmark
  | [], _ => none
  | p :: rest, k => if p.1 = k then some p.2 else odLookup rest k

/-- `d[k] = v`: replace in place if the key exists, else append. -/
def odInsert : OD → Str → Bookmark → OD
  | [], k, v => [(k, v)]
  | p :: rest, k, v => if p.1 = k then (k, v) :: rest else p :: odInsert rest k v

/-- Remove the entry with key `k` (keys are unique in an `OrderedDict`). -/
def odEraseKey : OD → Str → OD
  | [], _ => []
  | p :: rest, k => if p.1 = k then rest else p :: odEraseKey rest k

/-- `d.pop(k, None)` (webmark.py line 76): the removed value together with
the remaining dictionary, or `none` when the key is absent (in which case
the dictionary is unchanged). -/
def odPop : OD → Str → Option (Bookmark × OD)
  | [], _ => none
  | p :: rest, k =>
    if p.1 = k then some (p.2, rest)
    else
      match odPop rest k with
      | none => none
      | some (b, d) => some (b, p :: d)

/-- `OrderedDict(pairs)`: insert the pairs left to right. -/
def odFromListAux : OD → List (Str × Bookmark) → OD
  | acc, [] => acc
  | acc, kv :: rest => odFromListAux (odInsert acc kv.1 kv.2) rest

def odFromList (l : List (Str × Bookmark)) : OD :=
  odFromListAux [] l

/-! ### Application commands (`BookmarksApp`, webmark.py lines 42-90)

Each command is modelled as a pure function from the in-memory collection to
a `CmdResult` recording the new collection, the lines printed to stdout, the
argument of every `storage.save` call, the URLs passed to
`webbrowser.open_new_tab`, and the message of a raised `ApplicationError`
(a raise aborts the command before any later effect). -/

structure CmdResult where
  state : OD
  output : List Str
  saves : List (List Bookmark)
  opens : List Str
  error : Option Str
deriving DecidableEq, Repr

/-- Message printed by `list` on an empty collection (webmark.py line 56). -/
def emptyListMsg : Str :=
  "\tIt".data ++ Char.ofNat 39 :: "s empty here!  :(  ".data

/-- `ApplicationError` message of `add` on a duplicate code
(webmark.py lines 66-68), formatting the existing bookmark. -/
def duplicateCodeMsg (existing : Bookmark) : Str :=
  "There is a bookmark with that code:\n".data ++ formatBookmark existing
    ++ "\n\nTo override it add option -f".data

/-- `ApplicationError` message of `rm`/`open` on a missing code
(webmark.py lines 79 and 88). -/
def unknownCodeMsg (code : Str) : Str :=
  "There is no bookmark with code ".data ++ code

/-- `BookmarksApp.list` (webmark.py lines 54-59): print the placeholder when
the collection is falsy (empty), then print every bookmark in order. -/
def appList (d : OD) : CmdResult :=
  { state := d
    output := (if d.isEmpty then [emptyListMsg] else []) ++ (odValues d).map formatBookmark
    saves := []
    opens := []
    error := none }

/-- The mutating tail of `add` (webmark.py lines 71-72): assign the entry and
save the full collection of values. -/
def appAddStore (d : OD) (code url desc : Str) : CmdResult :=
  let d2 := odInsert d code (Bookmark.mk code url desc)
  { state := d2, output := [], saves := [odValues d2], opens := [], error := none }

/-- `BookmarksApp.add` (webmark.py lines 61-72): on an existing code without
`force`, raise `ApplicationError` with the duplicate-code message before any
mutation; otherwise insert/overwrite and save. -/
def appAdd (d : OD) (code url desc : Str) (force : Bool) : CmdResult :=
  match odLookup d code with
  | some existing =>
    if force then appAddStore d code url desc
    else { state := d, output := [], saves := [], opens := [], error := some (duplicateCodeMsg existing) }
  | none => appAddStore d code url desc

/-- `BookmarksApp.rm` (webmark.py lines 74-81): `pop` with default `None`
leaves an absent code untouched and raises; otherwise the entry is removed
and the full collection saved.  (A `Bookmark` named tuple is always truthy,
so `if not bookmark` fires exactly when `pop` returned `None`.) -/
def appRm (d : OD) (code : Str) : CmdResult :=
  match odPop d code with
  | none => { state := d, output := [], saves := [], opens := [], error := some (unknownCodeMsg code) }
  | some (_, d2) => { state := d2, output := [], saves := [odValues d2], opens := [], error := none }

/-- `BookmarksApp.open` (webmark.py lines 83-90): look the code up; absent
raises, present opens the URL in a browser tab; never saves. -/
def appOpenUrl (d : OD) (code : Str) : CmdResult :=
  match odLookup d code with
  | none => { state := d, output := [], saves := [], opens := [], error := some (unknownCodeMsg code) }
  | some b => { state := d, output := [], saves := [], opens := [b.url], error := none }

/-- `Bookmark._make(row)`: a row of exactly three fields makes a bookmark;
any other arity raises `TypeError` (modelled as `none`, a crash). -/
def mkBookmark : List Str → Option Bookmark
  | [c, u, d] => some (Bookmark.mk c u d)
  | _ => none

/-- `map(Bookmark._make, rows)`, strictly: the whole file crashes as soon as
one row has the wrong arity. -/
def rowsToBookmarks : List (List Str) → Option (List Bookmark)
  | [] => some []
  | r :: rest =>
    match mkBookmark r with
    | none => none
    | some b =>
      match rowsToBookmarks rest with
      | none => none
      | some bs => some (b :: bs)

/-- `BookmarksApp.__init__` (webmark.py lines 47-48), collection layer:
`OrderedDict((x.code, x) for x in bookmarks)`. -/
def appInit (bs : List Bookmark) : OD :=
  odFromList (bs.map (fun b => (b.code, b)))

/-- `BookmarksApp.__init__` from raw loaded rows; `none` models the
`TypeError` crash on a malformed row. -/
def appInitRows (rows : List (List Str)) : Option OD :=
  (rowsToBookmarks rows).map appInit

/-! ### Settings and the CLI (`Settings` / `__main__`, webmark.py lines 93-134)

`argparse` rejects a command outside `choices=['list','add','rm','open']` by
printing a usage message to stderr and exiting with status 2, before any
storage access; this is modelled as `SettingsFailure.usageExit 2`.  The
arity checks of `init_from_args` raise `ArgumentsError` (modelled as
`SettingsFailure.argsError` with the usage message).  `init_from_env` then
replaces the storage path with `WEBMARK_STORAGE_PATH` whenever that variable
is set — even when an explicit `--storage-path` value was parsed — and
finally `os.path.expanduser` is applied. -/

structure Settings where
  command : Str
  commandArgs : List Str
  force : Bool
  storagePath : Str
deriving DecidableEq, Repr

inductive SettingsFailure
  | usageExit (status : Nat)
  | argsError (msg : Str)
deriving DecidableEq, Repr

def validCommands : List Str :=
  ["list".data, "add".data, "rm".data, "open".data]

def defaultStoragePath : Str := "~/.webmark".data

def addUsageMsg : Str :=
  "To add bookmark use following command:\n\twebmark add \x7bcode\x7d \x7burl\x7d \x7bdescription\x7d".data

def openUsageMsg : Str :=
  "To open bookmark use following command:\n\twebmark open \x7bcode\x7d".data

def rmUsageMsg : Str :=
  "To remove bookmark use following command:\n\twebmark rm \x7bcode\x7d".data

/-- `Settings.init_from_args` (webmark.py lines 105-121): argparse validates
the command against `choices` (failure: usage error, exit status 2), the
storage path defaults to `~/.webmark` unless the flag is passed, then the
positional-argument counts of `add`/`open`/`rm` are checked. -/
def initFromArgs (cmd : Str) (cmdArgs : List Str) (force : Bool) (flagPath : Option Str) :
    Except SettingsFailure Settings :=
  if cmd ∈ validCommands then
    if cmd = "add".data ∧ cmdArgs.length ≠ 3 then .error (.argsError addUsageMsg)
    else if cmd = "open".data ∧ cmdArgs.length ≠ 1 then .error (.argsError openUsageMsg)
    else if cmd = "rm".data ∧ cmdArgs.length ≠ 1 then .error (.argsError rmUsageMsg)
    else .ok { command := cmd, commandArgs := cmdArgs, force := force,
               storagePath := flagPath.getD defaultStoragePath }
  else .error (.usageExit 2)

/-- `Settings.init_from_env` (webmark.py lines 123-125):
`os.environ.get('WEBMARK_STORAGE_PATH', self.storage_path)` — the current
storage path (flag value included) is only the fallback. -/
def initFromEnv (st : Settings) (envPath : Option Str) : Settings :=
  { st with storagePath := envPath.getD st.storagePath }

/-- `os.path.expanduser` on the fragment the program exercises: a leading
`~` that is the whole path or is followed by `/` is replaced by the home
directory.  (`~user` forms consult the OS user database; on the inputs used
here, as for an unknown user, the path is returned unchanged.) -/
def expanduser (home : Str) (p : Str) : Str :=
  match p with
  | [] => []
  | c :: rest =>
    if c = '~' then
      match rest with
      | [] => home
      | c2 :: rest2 => if c2 = '/' then home ++ c2 :: rest2 else c :: c2 :: rest2
    else c :: rest

/-- `Settings.__init__` (webmark.py lines 99-103): `init_from_args`, then
`init_from_env`, then tilde-expansion of the resulting path. -/
def settingsInit (cmd : Str) (cmdArgs : List Str) (force : Bool)
    (flagPath envPath : Option Str) (home : Str) : Except SettingsFailure Settings :=
  match initFromArgs cmd cmdArgs force flagPath with
  | .error e => .error e
  | .ok st =>
    let st2 := initFromEnv st envPath
    .ok { st2 with storagePath := expanduser home st2.storagePath }

/-- `BookmarksApp.run` (webmark.py lines 50-52) dispatch: the command name,
already validated against `choices`, selects the handler; the positional
arguments, already arity-checked, are unpacked.  `none` models an
unreachable crash. -/
def runCommand (st : Settings) (d : OD) : Option CmdResult :=
  if st.command = "list".data then some (appList d)
  else if st.command = "add".data then
    match st.commandArgs with
    | [c, u, dsc] => some (appAdd d c u dsc st.force)
    | _ => none
  else if st.command = "rm".data then
    match st.commandArgs with
    | [c] => some (appRm d c)
    | _ => none
  else if st.command = "open".data then
    match st.commandArgs with
    | [c] => some (appOpenUrl d c)
    | _ => none
  else none

/-- Observable outcome of one process invocation: stdout lines, the exit
status, how many times the storage file was read, every `save` call, and
whether the process died with an uncaught exception (stack trace). -/
structure MainResult where
  printed : List Str
  exitStatus : Nat
  loads : Nat
  saves : List (List Bookmark)
  crash : Bool
deriving DecidableEq, Repr

/-- The `__main__` block (webmark.py lines 128-134): build `Settings`
(argparse may exit with status 2; `ArgumentsError` propagates), construct
`BookmarksApp` (one storage read), run the command, catch
`ApplicationError`/`ArgumentsError` by printing the message and exiting
with status 1; success exits 0.  `file` is the content of the storage file
(`none`: the file does not exist). -/
def mainModel (file : Option Str) (cmd : Str) (cmdArgs : List Str) (force : Bool)
    (flagPath envPath : Option Str) (home : Str) : MainResult :=
  match settingsInit cmd cmdArgs force flagPath envPath home with
  | .error (.usageExit s) => { printed := [], exitStatus := s, loads := 0, saves := [], crash := false }
  | .error (.argsError m) => { printed := [m], exitStatus := 1, loads := 0, saves := [], crash := false }
  | .ok st =>
    match appInitRows (storageLoad file) with
    | none => { printed := [], exitStatus := 1, loads := 1, saves := [], crash := true }
    | some d =>
      match runCommand st d with
      | none => { printed := [], exitStatus := 1, loads := 1, saves := [], crash := true }
      | some r =>
        match r.error with
        | some m => { printed := r.output ++ [m], exitStatus := 1, loads := 1, saves := r.saves, crash := false }
        | none => { printed := r.output, exitStatus := 0, loads := 1, saves := r.saves, crash := false }

/-! ### Specification-side definitions

The two definitions below are written from the wording of the duplicate-code
construction claim, to be compared with the behaviour of `appInit`. -/

/-- Modelled from the spec claim: the *last* record of `bs` whose code is
`c`, if any. -/
def specLastRecord (bs : List Bookmark) (c : Str) : Option Bookmark :=
  match bs with
  | [] => none
  | b :: rest =>
    match specLastRecord rest c with
    | some r => some r
    | none => if b.code = c then some b else none

/-- Modelled from the spec claim: the codes of `bs` in order of *first*
occurrence, each kept once; `seen` accumulates the codes already emitted. -/
def specFirstKeysAux (seen : List Str) : List Str → List Str
  | [] => []
  | k :: ks =>
    if k ∈ seen then specFirstKeysAux seen ks
    else k :: specFirstKeysAux (seen ++ [k]) ks

/-- The last match over arbitrary key-value pairs, used to relate
`odFromList` to `specLastRecord`. -/
def specLastPair (l : List (Str × Bookmark)) (k : Str) : Option Bookmark :=
  match l with
  | [] => none
  | kv :: rest =>
    match specLastPair rest k with
    | some v => some v
    | none => if kv.1 = k then some kv.2 else none

/-- A field of the round-trip fragment: plain words, spaces and embedded
double quotes, but no line-terminator characters. -/
abbrev okField (f : Str) : Prop := ∀ c ∈ f, c ≠ '\n' ∧ c ≠ '\r'

/-- The row a bookmark contributes to `save` and recovers from `load`. -/
def bookmarkRow (b : Bookmark) : List Str :=
  [b.code, b.url, b.description]

/-- The `OrderedDict` invariant: keys are unique and each entry maps a key
to the bookmark carrying that very code. -/
abbrev odInv (d : OD) : Prop :=
  (odKeys d).Nodup ∧ ∀ p ∈ d, p.1 = p.2.code

/-! ### Round-trip lemmas for the CSV codec -/

theorem parseCsvAux_nil (m : CsvMode) (cur : Str) (fields : List Str) :
    parseCsvAux m [] cur fields = fields ++ [cur] := by
  cases m <;> rfl

theorem parseCsvAux_startField_cons (c : Char) (cs : List Char) (cur : Str) (fields : List Str) :
    parseCsvAux .startField (c :: cs) cur fields
      = if c = '"' then parseCsvAux .inQuoted cs cur fields
        else if c = ' ' then parseCsvAux .startField cs [] (fields ++ [cur])
        else parseCsvAux .inField cs (cur ++ [c]) fields := rfl

theorem parseCsvAux_inField_cons (c : Char) (cs : List Char) (cur : Str) (fields : List Str) :
    parseCsvAux .inField (c :: cs) cur fields
      = if c = ' ' then parseCsvAux .startField cs [] (fields ++ [cur])
        else parseCsvAux .inField cs (cur ++ [c]) fields := rfl

theorem parseCsvAux_inQuoted_cons (c : Char) (cs : List Char) (cur : Str) (fields : List Str) :
    parseCsvAux .inQuoted (c :: cs) cur fields
      = if c = '"' then parseCsvAux .quoteInQuoted cs cur fields
        else parseCsvAux .inQuoted cs (cur ++ [c]) fields := rfl

theorem parseCsvAux_quoteInQuoted_cons (c : Char) (cs : List Char) (cur : Str) (fields : List Str) :
    parseCsvAux .quoteInQuoted (c :: cs) cur fields
      = if c = '"' then parseCsvAux .inQuoted cs (cur ++ ['"']) fields
        else if c = ' ' then parseCsvAux .startField cs [] (fields ++ [cur])
        else parseCsvAux .inField cs (cur ++ [c]) fields := rfl

theorem parseCsvAux_escapeQuotes (f : Str) (rest : List Char) (cur : Str) (fields : List Str) :
    parseCsvAux .inQuoted (escapeQuotes f ++ rest) cur fields
      = parseCsvAux .inQuoted rest (cur ++ f) fields := by
  induction f generalizing cur with
  | nil => simp [escapeQuotes]
  | cons c f ih =>
    by_cases hc : c = '"'
    · subst hc
      rw [escapeQuotes, if_pos rfl, List.cons_append, List.cons_append,
        parseCsvAux_inQuoted_cons, if_pos rfl, parseCsvAux_quoteInQuoted_cons, if_pos rfl,
        ih (cur ++ ['"'])]
      simp
    · rw [escapeQuotes, if_neg hc, List.cons_append, parseCsvAux_inQuoted_cons, if_neg hc,
        ih (cur ++ [c])]
      simp

theorem parseCsvAux_inField_run (f : Str) (rest : List Char) (cur : Str) (fields : List Str)
    (h : ∀ c ∈ f, c ≠ ' ') :
    parseCsvAux .inField (f ++ rest) cur fields
      = parseCsvAux .inField rest (cur ++ f) fields := by
  induction f generalizing cur with
  | nil => simp
  | cons c f ih =>
    have hc : c ≠ ' ' := h c (List.mem_cons_self c f)
    have hf : ∀ x ∈ f, x ≠ ' ' := fun x hx => h x (List.mem_cons_of_mem c hx)
    rw [List.cons_append, parseCsvAux_inField_cons, if_neg hc, ih (cur ++ [c]) hf]
    simp

theorem not_needsQuoting_spec (f : Str) (h : needsQuoting f = false) :
    ∀ c ∈ f, c ≠ ' ' ∧ c ≠ '"' := by
  unfold needsQuoting at h
  rw [List.any_eq_false] at h
  intro c hc
  have hcc := h c hc
  simp only [Bool.or_eq_true, decide_eq_true_eq, not_or] at hcc
  exact ⟨hcc.1.1.1, hcc.1.1.2⟩

theorem parseCsvAux_encodeField_sep (f : Str) (rest : List Char) (fields : List Str) :
    parseCsvAux .startField (encodeField f ++ ' ' :: rest) [] fields
      = parseCsvAux .startField rest [] (fields ++ [f]) := by
  by_cases hq : needsQuoting f
  · rw [encodeField, if_pos hq, List.cons_append, List.append_assoc]
    rw [parseCsvAux_startField_cons, if_pos rfl]
    rw [List.singleton_append, parseCsvAux_escapeQuotes]
    rw [parseCsvAux_inQuoted_cons, if_pos rfl, parseCsvAux_quoteInQuoted_cons]
    simp [parseCsvAux_nil]
  · have hspec := not_needsQuoting_spec f (by simpa using hq)
    rw [encodeField, if_neg hq]
    cases f with
    | nil => rw [List.nil_append, parseCsvAux_startField_cons]; simp
    | cons c f =>
      have hc := hspec c (List.mem_cons_self c f)
      have hf : ∀ x ∈ f, x ≠ ' ' := fun x hx => (hspec x (List.mem_cons_of_mem c hx)).1
      rw [List.cons_append, parseCsvAux_startField_cons, if_neg hc.2, if_neg hc.1,
        List.nil_append, parseCsvAux_inField_run f (' ' :: rest) [c] fields hf,
        parseCsvAux_inField_cons, if_pos rfl, List.singleton_append]

theorem parseCsvAux_encodeField_last (f : Str) (fields : List Str) :
    parseCsvAux .startField (encodeField f) [] fields = fields ++ [f] := by
  by_cases hq : needsQuoting f
  · rw [encodeField, if_pos hq]
    rw [parseCsvAux_startField_cons, if_pos rfl, parseCsvAux_escapeQuotes]
    rw [parseCsvAux_inQuoted_cons, if_pos rfl, parseCsvAux_nil]
    simp
  · have hspec := not_needsQuoting_spec f (by simpa using hq)
    rw [encodeField, if_neg hq]
    cases f with
    | nil => rw [parseCsvAux_nil]
    | cons c f =>
      have hc := hspec c (List.mem_cons_self c f)
      have hf : ∀ x ∈ f, x ≠ ' ' := fun x hx => (hspec x (List.mem_cons_of_mem c hx)).1
      rw [parseCsvAux_startField_cons, if_neg hc.2, if_neg hc.1, List.nil_append]
      have h2 := parseCsvAux_inField_run f [] [c] fields hf
      rw [List.append_nil] at h2
      rw [h2, parseCsvAux_nil, List.singleton_append]

theorem encodeLine_ne_nil (b : Bookmark) : encodeLine b ≠ [] := by
  unfold encodeLine
  cases h : encodeField b.code <;> simp

theorem parseLine_encodeLine (b : Bookmark) :
    parseLine (encodeLine b) = bookmarkRow b := by
  rw [parseLine, if_neg (encodeLine_ne_nil b)]
  unfold encodeLine
  have h1 : encodeField b.code ++ ' ' :: encodeField b.url ++ ' ' :: encodeField b.description
      = encodeField b.code ++ ' ' :: (encodeField b.url ++ ' ' :: encodeField b.description) := by
    simp
  rw [h1, parseCsvAux_encodeField_sep, parseCsvAux_encodeField_sep, parseCsvAux_encodeField_last]
  simp [bookmarkRow]

theorem mem_escapeQuotes (c : Char) (f : Str) (h : c ∈ escapeQuotes f) :
    c ∈ f ∨ c = '"' := by
  induction f with
  | nil => simp [escapeQuotes] at h
  | cons x f ih =>
    rw [escapeQuotes] at h
    by_cases hx : x = '"'
    · rw [if_pos hx] at h
      simp only [List.mem_cons] at h
      rcases h with h | h | h
      · exact Or.inr h
      · exact Or.inr h
      · rcases ih h with h2 | h2
        · exact Or.inl (List.mem_cons_of_mem x h2)
        · exact Or.inr h2
    · rw [if_neg hx] at h
      simp only [List.mem_cons] at h
      rcases h with h | h
      · exact Or.inl (by rw [h]; exact List.mem_cons_self x f)
      · rcases ih h with h2 | h2
        · exact Or.inl (List.mem_cons_of_mem x h2)
        · exact Or.inr h2

theorem mem_encodeField (c : Char) (f : Str) (h : c ∈ encodeField f) :
    c ∈ f ∨ c = '"' := by
  unfold encodeField at h
  by_cases hq : needsQuoting f
  · rw [if_pos hq] at h
    simp only [List.mem_cons, List.mem_append] at h
    rcases h with h | h | h | h
    · exact Or.inr h
    · exact mem_escapeQuotes c f h
    · exact Or.inr h
    · exact absurd h (List.not_mem_nil c)
  · rw [if_neg hq] at h
    exact Or.inl h

theorem mem_encodeLine (c : Char) (b : Bookmark) (h : c ∈ encodeLine b) :
    c ∈ b.code ∨ c ∈ b.url ∨ c ∈ b.description ∨ c = '"' ∨ c = ' ' := by
  unfold encodeLine at h
  rcases List.mem_append.mp h with h1 | h1
  · rcases List.mem_append.mp h1 with h2 | h2
    · rcases mem_encodeField c _ h2 with h3 | h3
      · exact Or.inl h3
      · exact Or.inr (Or.inr (Or.inr (Or.inl h3)))
    · rcases List.mem_cons.mp h2 with h3 | h3
      · exact Or.inr (Or.inr (Or.inr (Or.inr h3)))
      · rcases mem_encodeField c _ h3 with h4 | h4
        · exact Or.inr (Or.inl h4)
        · exact Or.inr (Or.inr (Or.inr (Or.inl h4)))
  · rcases List.mem_cons.mp h1 with h3 | h3
    · exact Or.inr (Or.inr (Or.inr (Or.inr h3)))
    · rcases mem_encodeField c _ h3 with h4 | h4
      · exact Or.inr (Or.inr (Or.inl h4))
      · exact Or.inr (Or.inr (Or.inr (Or.inl h4)))

/-- An encoded line of a bookmark whose fields avoid line terminators also
avoids line terminators. -/
theorem encodeLine_no_terminator (b : Bookmark)
    (hc : okField b.code) (hu : okField b.url) (hd : okField b.description) :
    ∀ c ∈ encodeLine b, c ≠ '\n' ∧ c ≠ '\r' := by
  intro c h
  rcases mem_encodeLine c b h with h1 | h1 | h1 | h1 | h1
  · exact hc c h1
  · exact hu c h1
  · exact hd c h1
  · rw [h1]; exact ⟨by decide, by decide⟩
  · rw [h1]; exact ⟨by decide, by decide⟩

theorem splitLinesAux_crlf (cs : List Char) (cur : Str) :
    splitLinesAux ('\r' :: '\n' :: cs) cur = cur :: splitLinesAux cs [] := rfl

theorem splitLinesAux_other (c : Char) (cs : List Char) (cur : Str)
    (h1 : c ≠ '\r') (h2 : c ≠ '\n') :
    splitLinesAux (c :: cs) cur = splitLinesAux cs (cur ++ [c]) := by
  rw [splitLinesAux.eq_def]
  simp [h1, h2]

theorem splitLinesAux_term (l : Str) (rest : List Char) (cur : Str)
    (h : ∀ c ∈ l, c ≠ '\n' ∧ c ≠ '\r') :
    splitLinesAux (l ++ '\r' :: '\n' :: rest) cur = (cur ++ l) :: splitLinesAux rest [] := by
  induction l generalizing cur with
  | nil => rw [List.nil_append, splitLinesAux_crlf, List.append_nil]
  | cons c l ih =>
    have hc := h c (List.mem_cons_self c l)
    have hl : ∀ x ∈ l, x ≠ '\n' ∧ x ≠ '\r' := fun x hx => h x (List.mem_cons_of_mem c hx)
    rw [List.cons_append, splitLinesAux_other c _ cur hc.2 hc.1, ih (cur ++ [c]) hl]
    simp

theorem splitLines_saved (lines : List Str)
    (h : ∀ l ∈ lines, ∀ c ∈ l, c ≠ '\n' ∧ c ≠ '\r') :
    splitLines ((lines.map (fun l => l ++ ['\r', '\n'])).flatten) = lines := by
  unfold splitLines
  induction lines with
  | nil => simp [splitLinesAux]
  | cons l ls ih =>
    have hl := h l (List.mem_cons_self l ls)
    have hls : ∀ x ∈ ls, ∀ c ∈ x, c ≠ '\n' ∧ c ≠ '\r' :=
      fun x hx => h x (List.mem_cons_of_mem l hx)
    rw [List.map_cons, List.flatten_cons, List.append_assoc]
    have hsh : ('\r' :: '\n' :: ([] : List Char))
        ++ (ls.map (fun x => x ++ ['\r', '\n'])).flatten
        = '\r' :: '\n' :: (ls.map (fun x => x ++ ['\r', '\n'])).flatten := by
      simp
    rw [show (['\r', '\n'] : List Char) = '\r' :: '\n' :: [] from rfl, hsh,
      splitLinesAux_term l _ [] hl, List.nil_append, ih hls]

theorem storageLoad_some (content : Str) :
    storageLoad (some content) = (splitLines content).map parseLine := rfl

/-- C1 helper: saving bookmarks whose fields carry no line terminator and
loading the result recovers exactly the original rows. -/
theorem storageLoad_storageSave (bs : List Bookmark)
    (h : ∀ b ∈ bs, okField b.code ∧ okField b.url ∧ okField b.description) :
    storageLoad (some (storageSave bs)) = bs.map bookmarkRow := by
  rw [storageLoad_some]
  unfold storageSave
  have hmap : bs.map (fun b => encodeLine b ++ ['\r', '\n'])
      = (bs.map encodeLine).map (fun l => l ++ ['\r', '\n']) := by
    rw [List.map_map]; rfl
  rw [hmap, splitLines_saved (bs.map encodeLine)]
  · rw [List.map_map]
    apply List.map_congr_left
    intro b _
    exact parseLine_encodeLine b
  · intro l hl
    rcases List.mem_map.mp hl with ⟨b, hb, rfl⟩
    exact encodeLine_no_terminator b (h b hb).1 (h b hb).2.1 (h b hb).2.2

/-! ### Lemmas about the `OrderedDict` model -/

theorem odKeys_odInsert (d : OD) (k : Str) (v : Bookmark) :
    odKeys (odInsert d k v) = if k ∈ odKeys d then odKeys d else odKeys d ++ [k] := by
  induction d with
  | nil => simp [odInsert, odKeys]
  | cons p rest ih =>
    by_cases hp : p.1 = k
    · rw [odInsert, if_pos hp]
      have h1 : odKeys ((k, v) :: rest) = k :: odKeys rest := rfl
      have h2 : odKeys (p :: rest) = k :: odKeys rest := by
        rw [show odKeys (p :: rest) = p.1 :: odKeys rest from rfl, hp]
      rw [h1, h2, if_pos (List.mem_cons_self k (odKeys rest))]
    · rw [odInsert, if_neg hp]
      have hne : k ≠ p.1 := fun he => hp he.symm
      have hcons : odKeys (p :: odInsert rest k v) = p.1 :: odKeys (odInsert rest k v) := rfl
      have hcons2 : odKeys (p :: rest) = p.1 :: odKeys rest := rfl
      rw [hcons, ih, hcons2]
      by_cases hm : k ∈ odKeys rest
      · rw [if_pos hm, if_pos (List.mem_cons_of_mem p.1 hm)]
      · have hni : k ∉ p.1 :: odKeys rest := by
          intro hcm
          rcases List.mem_cons.mp hcm with h2 | h2
          · exact hne h2
          · exact hm h2
        rw [if_neg hm, if_neg hni, List.cons_append]

theorem odLookup_odInsert (d : OD) (k k2 : Str) (v : Bookmark) :
    odLookup (odInsert d k v) k2 = if k2 = k then some v else odLookup d k2 := by
  induction d with
  | nil =>
    by_cases h : k2 = k
    · simp [odInsert, odLookup, h]
    · have : ¬k = k2 := fun he => h he.symm
      simp [odInsert, odLookup, h, this]
  | cons p rest ih =>
    by_cases hp : p.1 = k
    · rw [odInsert, if_pos hp]
      by_cases h : k2 = k
      · simp [odLookup, h]
      · have h2 : ¬k = k2 := fun he => h he.symm
        rw [odLookup, if_neg h2, if_neg h]
        rw [odLookup, if_neg (hp ▸ h2)]
    · rw [odInsert, if_neg hp]
      by_cases h : p.1 = k2
      · have h2 : ¬k2 = k := fun he => hp (h.trans he)
        rw [odLookup, if_pos h, if_neg h2, odLookup, if_pos h]
      · rw [odLookup, if_neg h, ih, odLookup, if_neg h]

theorem odInsert_odInsert_same (d : OD) (k : Str) (v w : Bookmark) :
    odInsert (odInsert d k v) k w = odInsert d k w := by
  induction d with
  | nil => simp [odInsert]
  | cons p rest ih =>
    by_cases hp : p.1 = k
    · rw [odInsert, if_pos hp, odInsert, if_pos rfl, odInsert, if_pos hp]
    · rw [odInsert, if_neg hp, odInsert, if_neg hp, odInsert, if_neg hp, ih]

theorem mem_odInsert (d : OD) (k : Str) (v : Bookmark) (q : Str × Bookmark)
    (h : q ∈ odInsert d k v) : q ∈ d ∨ q = (k, v) := by
  induction d with
  | nil => simpa [odInsert] using h
  | cons p rest ih =>
    by_cases hp : p.1 = k
    · rw [odInsert, if_pos hp] at h
      rcases List.mem_cons.mp h with h2 | h2
      · exact Or.inr h2
      · exact Or.inl (List.mem_cons_of_mem p h2)
    · rw [odInsert, if_neg hp] at h
      rcases List.mem_cons.mp h with h2 | h2
      · exact Or.inl (h2 ▸ List.mem_cons_self p rest)
      · rcases ih h2 with h3 | h3
        · exact Or.inl (List.mem_cons_of_mem p h3)
        · exact Or.inr h3

theorem odKeys_nodup_odInsert (d : OD) (k : Str) (v : Bookmark)
    (h : (odKeys d).Nodup) : (odKeys (odInsert d k v)).Nodup := by
  rw [odKeys_odInsert]
  by_cases hm : k ∈ odKeys d
  · rw [if_pos hm]; exact h
  · rw [if_neg hm]
    simp [List.nodup_append, h, hm]

theorem odPop_eq (d : OD) (k : Str) :
    odPop d k = (odLookup d k).map (fun b => (b, odEraseKey d k)) := by
  induction d with
  | nil => simp [odPop, odLookup]
  | cons p rest ih =>
    by_cases hp : p.1 = k
    · rw [odPop, if_pos hp, odLookup, if_pos hp, odEraseKey, if_pos hp]
      rfl
    · rw [odPop, if_neg hp, odLookup, if_neg hp, ih, odEraseKey, if_neg hp]
      cases odLookup rest k <;> rfl

theorem odKeys_odEraseKey_sublist (d : OD) (k : Str) :
    (odKeys (odEraseKey d k)).Sublist (odKeys d) := by
  induction d with
  | nil => simp [odEraseKey, odKeys]
  | cons p rest ih =>
    by_cases hp : p.1 = k
    · rw [odEraseKey, if_pos hp]
      exact (List.sublist_cons_self p.1 (odKeys rest))
    · rw [odEraseKey, if_neg hp]
      exact List.Sublist.cons₂ p.1 ih

theorem mem_odEraseKey (d : OD) (k : Str) (q : Str × Bookmark)
    (h : q ∈ odEraseKey d k) : q ∈ d := by
  induction d with
  | nil => simp [odEraseKey] at h
  | cons p rest ih =>
    by_cases hp : p.1 = k
    · rw [odEraseKey, if_pos hp] at h
      exact List.mem_cons_of_mem p h
    · rw [odEraseKey, if_neg hp] at h
      rcases List.mem_cons.mp h with h2 | h2
      · exact h2 ▸ List.mem_cons_self p rest
      · exact List.mem_cons_of_mem p (ih h2)

theorem odInv_odInsert (d : OD) (k : Str) (v : Bookmark)
    (hk : k = v.code) (h : odInv d) : odInv (odInsert d k v) := by
  refine ⟨odKeys_nodup_odInsert d k v h.1, ?_⟩
  intro p hp
  rcases mem_odInsert d k v p hp with h2 | h2
  · exact h.2 p h2
  · rw [h2]; exact hk

theorem odInv_odEraseKey (d : OD) (k : Str) (h : odInv d) : odInv (odEraseKey d k) := by
  refine ⟨h.1.sublist (odKeys_odEraseKey_sublist d k), ?_⟩
  intro p hp
  exact h.2 p (mem_odEraseKey d k p hp)

/-! ### Lemmas about `OrderedDict` construction from a pair sequence -/

theorem odLookup_odFromListAux (acc : OD) (l : List (Str × Bookmark)) (k : Str) :
    odLookup (odFromListAux acc l) k
      = match specLastPair l k with
        | some v => some v
        | none => odLookup acc k := by
  induction l generalizing acc with
  | nil => rw [odFromListAux, specLastPair]
  | cons kv rest ih =>
    rw [odFromListAux, ih, specLastPair]
    cases specLastPair rest k with
    | some v => rfl
    | none =>
      rw [odLookup_odInsert]
      by_cases h : kv.1 = k
      · rw [if_pos h, if_pos h.symm]
      · have h2 : ¬k = kv.1 := fun he => h he.symm
        rw [if_neg h, if_neg h2]

theorem odKeys_odFromListAux (acc : OD) (l : List (Str × Bookmark)) :
    odKeys (odFromListAux acc l)
      = odKeys acc ++ specFirstKeysAux (odKeys acc) (l.map Prod.fst) := by
  induction l generalizing acc with
  | nil => rw [odFromListAux, List.map_nil, specFirstKeysAux, List.append_nil]
  | cons kv rest ih =>
    rw [odFromListAux, ih, List.map_cons, specFirstKeysAux, odKeys_odInsert]
    by_cases hm : kv.1 ∈ odKeys acc
    · rw [if_pos hm, if_pos hm]
    · rw [if_neg hm, if_neg hm, List.append_assoc, List.singleton_append]

theorem odInv_odFromListAux (acc : OD) (l : List (Str × Bookmark))
    (hacc : odInv acc) (hl : ∀ kv ∈ l, kv.1 = kv.2.code) :
    odInv (odFromListAux acc l) := by
  induction l generalizing acc with
  | nil => exact hacc
  | cons kv rest ih =>
    rw [odFromListAux]
    exact ih (odInsert acc kv.1 kv.2)
      (odInv_odInsert acc kv.1 kv.2 (hl kv (List.mem_cons_self kv rest)) hacc)
      (fun x hx => hl x (List.mem_cons_of_mem kv hx))

theorem odInv_appInit (bs : List Bookmark) : odInv (appInit bs) := by
  unfold appInit odFromList
  apply odInv_odFromListAux
  · exact ⟨List.nodup_nil, fun p hp => absurd hp (List.not_mem_nil p)⟩
  · intro kv hkv
    rcases List.mem_map.mp hkv with ⟨b, _, rfl⟩
    rfl

theorem mem_specFirstKeysAux (seen : List Str) (l : List Str) (x : Str) :
    x ∈ specFirstKeysAux seen l ↔ x ∈ l ∧ x ∉ seen := by
  induction l generalizing seen with
  | nil => simp [specFirstKeysAux]
  | cons k ks ih =>
    rw [specFirstKeysAux]
    by_cases hk : k ∈ seen
    · rw [if_pos hk, ih]
      constructor
      · rintro ⟨h1, h2⟩
        exact ⟨List.mem_cons_of_mem k h1, h2⟩
      · rintro ⟨h1, h2⟩
        rcases List.mem_cons.mp h1 with h3 | h3
        · exact absurd (h3 ▸ hk) h2
        · exact ⟨h3, h2⟩
    · rw [if_neg hk]
      constructor
      · intro h1
        rcases List.mem_cons.mp h1 with h3 | h3
        · exact ⟨h3 ▸ List.mem_cons_self k ks, h3 ▸ hk⟩
        · rcases (ih (seen ++ [k])).mp h3 with ⟨h4, h5⟩
          refine ⟨List.mem_cons_of_mem k h4, fun hx => h5 ?_⟩
          exact List.mem_append.mpr (Or.inl hx)
      · rintro ⟨h1, h2⟩
        rcases List.mem_cons.mp h1 with h3 | h3
        · exact h3 ▸ List.mem_cons_self k (specFirstKeysAux (seen ++ [k]) ks)
        · by_cases hxk : x = k
          · exact hxk ▸ List.mem_cons_self k (specFirstKeysAux (seen ++ [k]) ks)
          · refine List.mem_cons_of_mem k ((ih (seen ++ [k])).mpr ⟨h3, fun hx => ?_⟩)
            rcases List.mem_append.mp hx with h4 | h4
            · exact h2 h4
            · exact hxk (List.mem_singleton.mp h4)

theorem rowsToBookmarks_bookmarkRow (bs : List Bookmark) :
    rowsToBookmarks (bs.map bookmarkRow) = some bs := by
  induction bs with
  | nil => rfl
  | cons b rest ih =>
    rw [List.map_cons, rowsToBookmarks]
    have h1 : mkBookmark (bookmarkRow b) = some b := rfl
    rw [h1, ih]

/-! ### Claim theorems -/

/-- C1: for every sequence of distinct bookmarks whose three fields contain
only plain words, spaces and embedded double quotes (no line terminators),
`save` followed by `load` on the same file yields exactly the same sequence
of 3-field records, order and every field value preserved. -/
theorem claim1_csv_roundtrip (bs : List Bookmark)
    (_hdistinct : bs.Nodup)
    (hfields : ∀ b ∈ bs, okField b.code ∧ okField b.url ∧ okField b.description) :
    storageLoad (some (storageSave bs)) = bs.map bookmarkRow :=
  storageLoad_storageSave bs hfields

theorem claim1_csv_roundtrip_witness :
    ([Bookmark.mk "a b".data "http://x".data "say \"hi\"".data,
      Bookmark.mk "c".data "u".data []].Nodup
      ∧ ∀ b ∈ [Bookmark.mk "a b".data "http://x".data "say \"hi\"".data,
          Bookmark.mk "c".data "u".data []],
          okField b.code ∧ okField b.url ∧ okField b.description)
    ∧ storageLoad (some (storageSave
        [Bookmark.mk "a b".data "http://x".data "say \"hi\"".data,
         Bookmark.mk "c".data "u".data []]))
      = [Bookmark.mk "a b".data "http://x".data "say \"hi\"".data,
         Bookmark.mk "c".data "u".data []].map bookmarkRow :=
  ⟨⟨by decide, by decide⟩, claim1_csv_roundtrip _ (by decide) (by decide)⟩

/-- C2: `add` without force on an existing code fails with the duplicate-code
`ApplicationError` whose message carries the existing bookmark's formatted
text and the `-f` override hint, and neither the in-memory collection nor
the storage file is mutated (`save` is never called). -/
theorem claim2_add_duplicate (d : OD) (code url desc : Str) (b : Bookmark)
    (h : odLookup d code = some b) :
    appAdd d code url desc false
      = { state := d, output := [], saves := [], opens := [],
          error := some (duplicateCodeMsg b) }
    ∧ List.IsInfix (formatBookmark b) (duplicateCodeMsg b)
    ∧ List.IsInfix "To override it add option -f".data (duplicateCodeMsg b) := by
  refine ⟨?_, ?_, ?_⟩
  · unfold appAdd
    rw [h]
    rfl
  · exact ⟨"There is a bookmark with that code:\n".data,
      "\n\nTo override it add option -f".data, by simp [duplicateCodeMsg]⟩
  · exact ⟨"There is a bookmark with that code:\n".data ++ formatBookmark b ++ "\n\n".data,
      [], by simp [duplicateCodeMsg]⟩

theorem claim2_add_duplicate_witness :
    odLookup [("a".data, Bookmark.mk "a".data "u".data "d".data)] "a".data
      = some (Bookmark.mk "a".data "u".data "d".data)
    ∧ appAdd [("a".data, Bookmark.mk "a".data "u".data "d".data)]
        "a".data "u2".data "d2".data false
      = { state := [("a".data, Bookmark.mk "a".data "u".data "d".data)],
          output := [], saves := [], opens := [],
          error := some (duplicateCodeMsg (Bookmark.mk "a".data "u".data "d".data)) } :=
  ⟨by decide, (claim2_add_duplicate _ "a".data "u2".data "d2".data _ (by decide)).1⟩

/-- C4: `rm` on an absent code fails with the unknown-code error and neither
the collection nor the file is mutated (no `save` call); `rm` on a present
code removes the entry and persists the full remaining collection. -/
theorem claim4_rm_semantics (d : OD) (code : Str) :
    (odLookup d code = none →
      appRm d code = { state := d, output := [], saves := [], opens := [],
                       error := some (unknownCodeMsg code) })
    ∧ (∀ b, odLookup d code = some b →
      appRm d code = { state := odEraseKey d code, output := [],
                       saves := [odValues (odEraseKey d code)], opens := [],
                       error := none }) := by
  constructor
  · intro h
    unfold appRm
    rw [odPop_eq, h]
    rfl
  · intro b h
    unfold appRm
    rw [odPop_eq, h]
    rfl

theorem claim4_rm_semantics_witness :
    (odLookup ([] : OD) "a".data = none
      ∧ appRm ([] : OD) "a".data
        = { state := [], output := [], saves := [], opens := [],
            error := some (unknownCodeMsg "a".data) })
    ∧ (odLookup [("a".data, Bookmark.mk "a".data "u".data "d".data)] "a".data
        = some (Bookmark.mk "a".data "u".data "d".data)
      ∧ appRm [("a".data, Bookmark.mk "a".data "u".data "d".data)] "a".data
        = { state := odEraseKey [("a".data, Bookmark.mk "a".data "u".data "d".data)] "a".data,
            output := [],
            saves := [odValues (odEraseKey
              [("a".data, Bookmark.mk "a".data "u".data "d".data)] "a".data)],
            opens := [], error := none }) :=
  ⟨⟨by decide, (claim4_rm_semantics [] "a".data).1 (by decide)⟩,
   ⟨by decide, (claim4_rm_semantics
      [("a".data, Bookmark.mk "a".data "u".data "d".data)] "a".data).2
      (Bookmark.mk "a".data "u".data "d".data) (by decide)⟩⟩

/-- C6: `list` emits the literal placeholder message on an empty collection,
and otherwise exactly one line per bookmark in collection order, each line
formatted `[code] url - description`; it never saves, errors or mutates. -/
theorem claim6_list_output (d : OD) :
    (appList d).state = d ∧ (appList d).saves = [] ∧ (appList d).error = none
    ∧ (d = [] → (appList d).output = [emptyListMsg])
    ∧ (d ≠ [] → (appList d).output = (odValues d).map formatBookmark)
    ∧ (∀ b : Bookmark, formatBookmark b
        = "[".data ++ b.code ++ "] ".data ++ b.url ++ " - ".data ++ b.description) := by
  refine ⟨rfl, rfl, rfl, ?_, ?_, fun b => rfl⟩
  · intro h
    rw [h]
    rfl
  · intro h
    have he : d.isEmpty = false := by
      cases d with
      | nil => exact absurd rfl h
      | cons p rest => rfl
    show (if d.isEmpty then [emptyListMsg] else []) ++ (odValues d).map formatBookmark = _
    rw [he]
    simp

theorem claim6_list_output_witness :
    (appList []).output = [emptyListMsg]
    ∧ (appList [("a".data, Bookmark.mk "a".data "u".data "d".data)]).output
      = [formatBookmark (Bookmark.mk "a".data "u".data "d".data)] :=
  ⟨(claim6_list_output []).2.2.2.1 rfl,
   by
     have h := (claim6_list_output
       [("a".data, Bookmark.mk "a".data "u".data "d".data)]).2.2.2.2.1 (by decide)
     rw [h]
     rfl⟩

/-- C7: loading from a storage path whose file does not exist produces the
empty sequence of records rather than an error, so the in-memory collection
is constructed empty. -/
theorem claim7_load_missing_file :
    storageLoad none = [] ∧ appInitRows (storageLoad none) = some [] :=
  ⟨rfl, rfl⟩

theorem filter_eq_nil_of_not_mem (xs : List Str) (a : Str) (h : a ∉ xs) :
    xs.filter (fun y => y = a) = [] := by
  induction xs with
  | nil => rfl
  | cons z zs ih =>
    have hz : ¬z = a := fun he => h (he ▸ List.mem_cons_self z zs)
    rw [List.filter_cons, if_neg (by simpa using hz)]
    exact ih (fun hm => h (List.mem_cons_of_mem z hm))

/-- In a duplicate-free key sequence, a present key occurs exactly once. -/
theorem length_filter_nodup (l : List Str) (a : Str) (hn : l.Nodup) (hm : a ∈ l) :
    (l.filter (fun x => x = a)).length = 1 := by
  induction l with
  | nil => exact absurd hm (List.not_mem_nil a)
  | cons x xs ih =>
    have hx : x ∉ xs := (List.nodup_cons.mp hn).1
    have hxs : xs.Nodup := (List.nodup_cons.mp hn).2
    by_cases hxa : x = a
    · rw [List.filter_cons, if_pos (by simpa using hxa)]
      rw [hxa] at hx
      rw [filter_eq_nil_of_not_mem xs a hx]
      rfl
    · rw [List.filter_cons, if_neg (by simpa using hxa)]
      rcases List.mem_cons.mp hm with h1 | h1
      · exact absurd h1.symm hxa
      · exact ih hxs h1

theorem appAdd_force_state (d : OD) (c u e : Str) :
    (appAdd d c u e true).state = odInsert d c (Bookmark.mk c u e) := by
  unfold appAdd
  cases h : odLookup d c with
  | none => rfl
  | some b => rfl

/-- C5: `add` is idempotent under force: adding the same code twice with
force leaves exactly one entry for that code, holding the second call's url
and description, and an overwrite of an existing code keeps the key sequence
unchanged (the entry stays at its prior position); a fresh code is appended
at the end. -/
theorem claim5_add_force_idempotent (d : OD) (c u1 e1 u2 e2 : Str)
    (h : (odKeys d).Nodup) :
    (appAdd (appAdd d c u1 e1 true).state c u2 e2 true).state
      = odInsert d c (Bookmark.mk c u2 e2)
    ∧ odLookup (appAdd (appAdd d c u1 e1 true).state c u2 e2 true).state c
      = some (Bookmark.mk c u2 e2)
    ∧ ((odKeys (appAdd (appAdd d c u1 e1 true).state c u2 e2 true).state).filter
        (fun k => k = c)).length = 1
    ∧ odKeys (appAdd (appAdd d c u1 e1 true).state c u2 e2 true).state
      = (if c ∈ odKeys d then odKeys d else odKeys d ++ [c]) := by
  have h1 : (appAdd (appAdd d c u1 e1 true).state c u2 e2 true).state
      = odInsert d c (Bookmark.mk c u2 e2) := by
    rw [appAdd_force_state, appAdd_force_state, odInsert_odInsert_same]
  refine ⟨h1, ?_, ?_, ?_⟩
  · rw [h1, odLookup_odInsert, if_pos rfl]
  · rw [h1, odKeys_odInsert]
    by_cases hm : c ∈ odKeys d
    · rw [if_pos hm]
      exact length_filter_nodup (odKeys d) c h hm
    · rw [if_neg hm, List.filter_append, filter_eq_nil_of_not_mem (odKeys d) c hm,
        List.nil_append, List.filter_cons, if_pos (by simp)]
      rfl
  · rw [h1, odKeys_odInsert]

theorem claim5_add_force_idempotent_witness :
    (odKeys [("a".data, Bookmark.mk "a".data "u".data "d".data)]).Nodup
    ∧ odLookup (appAdd (appAdd [("a".data, Bookmark.mk "a".data "u".data "d".data)]
        "a".data "u1".data "d1".data true).state "a".data "u2".data "d2".data true).state "a".data
      = some (Bookmark.mk "a".data "u2".data "d2".data)
    ∧ odKeys (appAdd (appAdd [("a".data, Bookmark.mk "a".data "u".data "d".data)]
        "a".data "u1".data "d1".data true).state "a".data "u2".data "d2".data true).state
      = (if "a".data ∈ odKeys [("a".data, Bookmark.mk "a".data "u".data "d".data)]
          then odKeys [("a".data, Bookmark.mk "a".data "u".data "d".data)]
          else odKeys [("a".data, Bookmark.mk "a".data "u".data "d".data)] ++ ["a".data]) :=
  ⟨by decide,
   (claim5_add_force_idempotent [("a".data, Bookmark.mk "a".data "u".data "d".data)]
     "a".data "u1".data "d1".data "u2".data "d2".data (by decide)).2.1,
   (claim5_add_force_idempotent [("a".data, Bookmark.mk "a".data "u".data "d".data)]
     "a".data "u1".data "d1".data "u2".data "d2".data (by decide)).2.2.2⟩

/-- C9: the collection invariant — keys are unique and every entry maps a
key to a bookmark whose code equals that key — holds by construction and is
preserved by every operation: add, rm, list and open. -/
theorem claim9_invariant :
    (∀ bs : List Bookmark, odInv (appInit bs))
    ∧ (∀ (d : OD) (code url desc : Str) (force : Bool),
        odInv d → odInv (appAdd d code url desc force).state)
    ∧ (∀ (d : OD) (code : Str), odInv d → odInv (appRm d code).state)
    ∧ (∀ d : OD, odInv d → odInv (appList d).state)
    ∧ (∀ (d : OD) (code : Str), odInv d → odInv (appOpenUrl d code).state) := by
  refine ⟨odInv_appInit, ?_, ?_, ?_, ?_⟩
  · intro d code url desc force hinv
    unfold appAdd
    cases hl : odLookup d code with
    | none => exact odInv_odInsert d code _ rfl hinv
    | some b =>
      cases force with
      | false => exact hinv
      | true => exact odInv_odInsert d code _ rfl hinv
  · intro d code hinv
    unfold appRm
    rw [odPop_eq]
    cases hl : odLookup d code with
    | none => exact hinv
    | some b => exact odInv_odEraseKey d code hinv
  · intro d hinv
    exact hinv
  · intro d code hinv
    unfold appOpenUrl
    cases hl : odLookup d code with
    | none => exact hinv
    | some b => exact hinv

theorem claim9_invariant_witness :
    odInv [("a".data, Bookmark.mk "a".data "u".data "d".data)]
    ∧ odInv (appAdd [("a".data, Bookmark.mk "a".data "u".data "d".data)]
        "b".data "u2".data "d2".data true).state :=
  ⟨by decide,
   claim9_invariant.2.1 [("a".data, Bookmark.mk "a".data "u".data "d".data)]
     "b".data "u2".data "d2".data true (by decide)⟩

theorem specLastPair_map (bs : List Bookmark) (c : Str) :
    specLastPair (bs.map (fun b => (b.code, b))) c = specLastRecord bs c := by
  induction bs with
  | nil => rfl
  | cons b rest ih =>
    rw [List.map_cons, specLastPair, specLastRecord, ih]

theorem odLookup_appInit (bs : List Bookmark) (c : Str) :
    odLookup (appInit bs) c = specLastRecord bs c := by
  have h := odLookup_odFromListAux [] (bs.map (fun b => (b.code, b))) c
  rw [specLastPair_map] at h
  rw [show appInit bs
      = odFromListAux [] (bs.map (fun b => (b.code, b))) from rfl, h]
  cases specLastRecord bs c <;> rfl

theorem odKeys_appInit (bs : List Bookmark) :
    odKeys (appInit bs) = specFirstKeysAux [] (bs.map (fun b => b.code)) := by
  have h := odKeys_odFromListAux [] (bs.map (fun b => (b.code, b)))
  rw [show appInit bs
      = odFromListAux [] (bs.map (fun b => (b.code, b))) from rfl, h]
  rw [show odKeys ([] : OD) = [] from rfl, List.nil_append, List.map_map]
  rfl

/-- C10: constructing the collection from records that repeat a code keeps
exactly one entry per code, holding the last such record's value, positioned
in collection order where the code first occurred; construction does not
fail on duplicate codes. -/
theorem claim10_init_duplicates (bs : List Bookmark) (c : Str) :
    odLookup (appInit bs) c = specLastRecord bs c
    ∧ odKeys (appInit bs) = specFirstKeysAux [] (bs.map (fun b => b.code))
    ∧ (c ∈ bs.map (fun b => b.code) →
        ((odKeys (appInit bs)).filter (fun k => k = c)).length = 1)
    ∧ appInitRows (bs.map bookmarkRow) = some (appInit bs) := by
  refine ⟨odLookup_appInit bs c, odKeys_appInit bs, ?_, ?_⟩
  · intro hm
    have hmem : c ∈ odKeys (appInit bs) := by
      rw [odKeys_appInit]
      exact (mem_specFirstKeysAux [] (bs.map (fun b => b.code)) c).mpr
        ⟨hm, List.not_mem_nil c⟩
    exact length_filter_nodup (odKeys (appInit bs)) c (odInv_appInit bs).1 hmem
  · rw [show appInitRows (bs.map bookmarkRow)
        = (rowsToBookmarks (bs.map bookmarkRow)).map appInit from rfl,
      rowsToBookmarks_bookmarkRow]
    rfl

theorem claim10_init_duplicates_witness :
    ("a".data ∈ [Bookmark.mk "a".data "u1".data "d1".data,
        Bookmark.mk "b".data "u2".data "d2".data,
        Bookmark.mk "a".data "u3".data "d3".data].map (fun b => b.code))
    ∧ specLastRecord [Bookmark.mk "a".data "u1".data "d1".data,
        Bookmark.mk "b".data "u2".data "d2".data,
        Bookmark.mk "a".data "u3".data "d3".data] "a".data
      = some (Bookmark.mk "a".data "u3".data "d3".data)
    ∧ odLookup (appInit [Bookmark.mk "a".data "u1".data "d1".data,
        Bookmark.mk "b".data "u2".data "d2".data,
        Bookmark.mk "a".data "u3".data "d3".data]) "a".data
      = specLastRecord [Bookmark.mk "a".data "u1".data "d1".data,
        Bookmark.mk "b".data "u2".data "d2".data,
        Bookmark.mk "a".data "u3".data "d3".data] "a".data
    ∧ ((odKeys (appInit [Bookmark.mk "a".data "u1".data "d1".data,
        Bookmark.mk "b".data "u2".data "d2".data,
        Bookmark.mk "a".data "u3".data "d3".data])).filter
        (fun k => k = "a".data)).length = 1 :=
  ⟨by decide, by decide,
   (claim10_init_duplicates [Bookmark.mk "a".data "u1".data "d1".data,
      Bookmark.mk "b".data "u2".data "d2".data,
      Bookmark.mk "a".data "u3".data "d3".data] "a".data).1,
   (claim10_init_duplicates [Bookmark.mk "a".data "u1".data "d1".data,
      Bookmark.mk "b".data "u2".data "d2".data,
      Bookmark.mk "a".data "u3".data "d3".data] "a".data).2.2.1 (by decide)⟩

theorem initFromArgs_storagePath (cmd : Str) (cmdArgs : List Str) (force : Bool)
    (flagPath : Option Str) (st : Settings)
    (h : initFromArgs cmd cmdArgs force flagPath = .ok st) :
    st.storagePath = flagPath.getD defaultStoragePath := by
  unfold initFromArgs at h
  by_cases h1 : cmd ∈ validCommands
  · rw [if_pos h1] at h
    by_cases h2 : cmd = "add".data ∧ cmdArgs.length ≠ 3
    · rw [if_pos h2] at h; exact Except.noConfusion h
    · rw [if_neg h2] at h
      by_cases h3 : cmd = "open".data ∧ cmdArgs.length ≠ 1
      · rw [if_pos h3] at h; exact Except.noConfusion h
      · rw [if_neg h3] at h
        by_cases h4 : cmd = "rm".data ∧ cmdArgs.length ≠ 1
        · rw [if_pos h4] at h; exact Except.noConfusion h
        · rw [if_neg h4] at h
          injection h with h5
          rw [← h5]
  · rw [if_neg h1] at h
    exact Except.noConfusion h

/-- C3 counterexample: with an explicit `--storage-path` value and the
`WEBMARK_STORAGE_PATH` environment variable both supplied, the resulting
configuration's storage path is the environment value, not the flag value —
contradicting the claim that the flag value takes final precedence. -/
theorem claim3_storage_path_cex :
    settingsInit "list".data [] false (some "/flag".data) (some "/env".data) "/home/u".data
      = .ok { command := "list".data, commandArgs := [], force := false,
              storagePath := "/env".data }
    ∧ "/env".data ≠ "/flag".data :=
  ⟨rfl, by decide⟩

/-- C3 amended: the environment variable, when set, takes final precedence —
the storage path is its (tilde-expanded) value even when an explicit flag
value was supplied, because `init_from_env` runs after `init_from_args`; the
flag value is used only when the environment variable is unset. -/
theorem claim3_storage_path_amended :
    (∀ (cmd : Str) (cmdArgs : List Str) (force : Bool)
        (flagPath : Option Str) (envVal home : Str) (st : Settings),
      settingsInit cmd cmdArgs force flagPath (some envVal) home = .ok st →
      st.storagePath = expanduser home envVal)
    ∧ (∀ (cmd : Str) (cmdArgs : List Str) (force : Bool)
        (flagVal home : Str) (st : Settings),
      settingsInit cmd cmdArgs force (some flagVal) none home = .ok st →
      st.storagePath = expanduser home flagVal) := by
  constructor
  · intro cmd cmdArgs force flagPath envVal home st h
    unfold settingsInit at h
    cases harg : initFromArgs cmd cmdArgs force flagPath with
    | error e => rw [harg] at h; exact Except.noConfusion h
    | ok st0 =>
      rw [harg] at h
      injection h with h2
      rw [← h2]
      rfl
  · intro cmd cmdArgs force flagVal home st h
    unfold settingsInit at h
    cases harg : initFromArgs cmd cmdArgs force (some flagVal) with
    | error e => rw [harg] at h; exact Except.noConfusion h
    | ok st0 =>
      rw [harg] at h
      injection h with h2
      have h3 := initFromArgs_storagePath cmd cmdArgs force (some flagVal) st0 harg
      rw [← h2]
      show expanduser home st0.storagePath = expanduser home flagVal
      rw [h3]
      rfl

theorem claim3_storage_path_amended_witness :
    settingsInit "rm".data ["a".data] false (some "/flag".data) (some "/env".data) "/h".data
      = .ok { command := "rm".data, commandArgs := ["a".data], force := false,
              storagePath := "/env".data }
    ∧ ({ command := "rm".data, commandArgs := ["a".data], force := false,
         storagePath := "/env".data } : Settings).storagePath
      = expanduser "/h".data "/env".data :=
  ⟨rfl,
   claim3_storage_path_amended.1 "rm".data ["a".data] false (some "/flag".data)
     "/env".data "/h".data
     { command := "rm".data, commandArgs := ["a".data], force := false,
       storagePath := "/env".data } rfl⟩

/-- C8 counterexample: an unrecognized command name is rejected by argparse
itself, which exits with status 2 — not status 1 — so the claim that every
such error exits with status 1 fails. -/
theorem claim8_error_recovery_cex :
    mainModel none "foo".data [] false none none []
      = { printed := [], exitStatus := 2, loads := 0, saves := [], crash := false }
    ∧ (mainModel none "foo".data [] false none none []).exitStatus ≠ 1 := by
  decide

/-- C8 amended: an `ArgumentsError` (wrong positional-argument count for
add/rm/open) and every `ApplicationError` are recovered at the top level by
printing the message and exiting with status 1, never a stack trace, and
argument errors are detected before any storage access; an unrecognized
command name, however, is rejected by argparse itself, which prints usage
and exits with status 2 (also before any storage access). -/
theorem claim8_error_recovery_amended :
    (∀ (file : Option Str) (cmd : Str) (cmdArgs : List Str) (force : Bool)
        (flagPath envPath : Option Str) (home m : Str),
      initFromArgs cmd cmdArgs force flagPath = .error (.argsError m) →
      mainModel file cmd cmdArgs force flagPath envPath home
        = { printed := [m], exitStatus := 1, loads := 0, saves := [], crash := false })
    ∧ (∀ (file : Option Str) (cmd : Str) (cmdArgs : List Str) (force : Bool)
        (flagPath envPath : Option Str) (home : Str) (st : Settings) (d : OD)
        (r : CmdResult) (m : Str),
      settingsInit cmd cmdArgs force flagPath envPath home = .ok st →
      appInitRows (storageLoad file) = some d →
      runCommand st d = some r →
      r.error = some m →
      mainModel file cmd cmdArgs force flagPath envPath home
        = { printed := r.output ++ [m], exitStatus := 1, loads := 1,
            saves := r.saves, crash := false })
    ∧ (∀ (file : Option Str) (cmd : Str) (cmdArgs : List Str) (force : Bool)
        (flagPath envPath : Option Str) (home : Str),
      cmd ∉ validCommands →
      mainModel file cmd cmdArgs force flagPath envPath home
        = { printed := [], exitStatus := 2, loads := 0, saves := [], crash := false }) := by
  refine ⟨?_, ?_, ?_⟩
  · intro file cmd cmdArgs force flagPath envPath home m h
    unfold mainModel settingsInit
    rw [h]
  · intro file cmd cmdArgs force flagPath envPath home st d r m h1 h2 h3 h4
    unfold mainModel
    simp only [h1, h2, h3, h4]
  · intro file cmd cmdArgs force flagPath envPath home h
    unfold mainModel settingsInit initFromArgs
    rw [if_neg h]

theorem claim8_error_recovery_amended_witness :
    initFromArgs "add".data ["x".data] false none = .error (.argsError addUsageMsg)
    ∧ mainModel none "add".data ["x".data] false none none []
      = { printed := [addUsageMsg], exitStatus := 1, loads := 0, saves := [],
          crash := false } :=
  ⟨rfl,
   claim8_error_recovery_amended.1 none "add".data ["x".data] false none none []
     addUsageMsg rfl⟩
